import Mathlib

/-
Verification of the Windows service lifecycle controller
(src/src/vector_windows.rs) via a shallow embedding.

The OS service registry is modelled by a `Provider` record that fixes the
result of every provider call (connect, open, the i-th status query,
start, stop, delete).  Each lifecycle operation is embedded as a function
from a `Provider` to its result together with a trace of the externally
visible actions it performed (provider calls, sleeps, emitted telemetry
events), mirroring the Rust control flow statement by statement.
Durations are natural numbers (seconds); the `?`-propagation of provider
errors is mirrored by explicit `Except` matching.
-/

namespace VectorWindows

/-- The service states of the Windows service protocol
(windows_service::service::ServiceState). -/
inductive ServiceState
  | Stopped
  | StartPending
  | StopPending
  | Running
  | ContinuePending
  | PausePending
  | Paused
  deriving DecidableEq, Repr

/-- windows_service::service::ServiceExitCode. -/
inductive ServiceExitCode
  | Win32 (code : Nat)
  | ServiceSpecific (code : Nat)
  deriving DecidableEq, Repr

/-- The part of windows_service::service::ServiceStatus read by the
lifecycle controller: the current state and the exit code. -/
structure ServiceStatus where
  current_state : ServiceState
  exit_code : ServiceExitCode
  deriving DecidableEq, Repr

/-- NO_ERROR constant from vector_windows.rs. -/
def NO_ERROR : Nat := 0

/-- ERROR_FAIL_SHUTDOWN constant from vector_windows.rs. -/
def ERROR_FAIL_SHUTDOWN : Nat := 351

/-- service_control::Error: a wrapped provider error (`Service`, with the
underlying OS error abstracted to a numeric cause) or a poll timeout
carrying observed state, expected state and the timeout. -/
inductive Error
  | Service (source : Nat)
  | PollTimeout (state : ServiceState) (expected_state : ServiceState) (timeout : Nat)
  deriving DecidableEq, Repr

/-- service_control::ControlAction. -/
inductive ControlAction
  | Install
  | Uninstall
  | Start
  | Stop
  | Restart
  deriving DecidableEq, Repr

/-- service_control::PollStatus. -/
inductive PollStatus
  | NoTimeout (status : ServiceStatus)
  | Timeout (status : ServiceStatus)
  deriving DecidableEq, Repr

/-- `impl FromStr for ControlAction` from vector_windows.rs, transcribed
match arm by match arm (note: the source has no arm for "restart"). -/
def ControlAction.from_str (s : String) : Except String ControlAction :=
  match s with
  | "install" => .ok .Install
  | "uninstall" => .ok .Uninstall
  | "start" => .ok .Start
  | "stop" => .ok .Stop
  | _ => .error ("invalid option " ++ s ++ " for ControlAction")

/-- Externally visible actions of a lifecycle operation, in order:
provider calls (query with its status, failing query with its error code,
start, stop, delete), thread sleeps, and emitted telemetry events. -/
inductive Event
  | query (status : ServiceStatus)
  | queryErr (e : Nat)
  | startCall
  | stopCall
  | deleteCall
  | sleep (d : Nat)
  | emitStart (already_started : Bool)
  | emitStop (already_stopped : Bool)
  | emitRestart
  | emitUninstall
  | emitDoesNotExist
  deriving DecidableEq, Repr

/-- The abstract OS service registry: the outcome of every provider call.
`queryRes i` is the result of the i-th status query issued by an
operation (status is re-queried on every poll, never cached); the other
fields fix the outcome of the corresponding call.  Errors are abstracted
to their numeric cause. -/
structure Provider where
  connectRes : Except Nat Unit
  openRes : Except Nat Unit
  queryRes : Nat → Except Nat ServiceStatus
  startRes : Except Nat Unit
  stopRes : Except Nat Unit
  deleteRes : Except Nat Unit

/-- open_service: connect to the service manager (connect-only rights),
then open the service; on open failure emit the WindowsServiceDoesNotExist
event and wrap the provider error. -/
def open_service (p : Provider) : Except Error Unit × List Event :=
  match p.connectRes with
  | .error e => (.error (.Service e), [])
  | .ok _ =>
    match p.openRes with
    | .error e => (.error (.Service e), [Event.emitDoesNotExist])
    | .ok _ => (.ok (), [])

/-- start_service: open, query status, and — because the source's guard is
`state != StartPending || state != Running` — branch on that condition
verbatim; the start call's error propagates before the event is emitted. -/
def start_service (p : Provider) : Except Error Unit × List Event :=
  match open_service p with
  | (.error e, tr) => (.error e, tr)
  | (.ok _, tr) =>
    match p.queryRes 0 with
    | .error e => (.error (.Service e), tr ++ [Event.queryErr e])
    | .ok st =>
      if st.current_state ≠ ServiceState.StartPending
          ∨ st.current_state ≠ ServiceState.Running then
        match p.startRes with
        | .error e => (.error (.Service e), tr ++ [Event.query st, Event.startCall])
        | .ok _ =>
            (.ok (), tr ++ [Event.query st, Event.startCall, Event.emitStart false])
      else
        (.ok (), tr ++ [Event.query st, Event.emitStart true])

/-- stop_service: symmetric to start_service with the guard
`state != StopPending || state != Stopped` transcribed verbatim. -/
def stop_service (p : Provider) : Except Error Unit × List Event :=
  match open_service p with
  | (.error e, tr) => (.error e, tr)
  | (.ok _, tr) =>
    match p.queryRes 0 with
    | .error e => (.error (.Service e), tr ++ [Event.queryErr e])
    | .ok st =>
      if st.current_state ≠ ServiceState.StopPending
          ∨ st.current_state ≠ ServiceState.Stopped then
        match p.stopRes with
        | .error e => (.error (.Service e), tr ++ [Event.query st, Event.stopCall])
        | .ok _ =>
            (.ok (), tr ++ [Event.query st, Event.stopCall, Event.emitStop false])
      else
        (.ok (), tr ++ [Event.query st, Event.emitStop true])

/-- A provider whose calls all succeed and whose every status query
reports state `st` with exit code Win32(NO_ERROR). -/
def okProvider (st : ServiceState) : Provider where
  connectRes := .ok ()
  openRes := .ok ()
  queryRes := fun _ => .ok { current_state := st, exit_code := .Win32 NO_ERROR }
  startRes := .ok ()
  stopRes := .ok ()
  deleteRes := .ok ()

/-- The loop of poll_state, fuelled.  `idx` is the index of the next
status query (poll loops inside restart/uninstall start at index 1,
after the operation's initial query), `wait_time` the accumulated wait.
Each iteration queries the status (a query error propagates
immediately); on a match it breaks `NoTimeout`; otherwise it adds
`wait_hint` to the accumulated wait, breaks `Timeout` once that reaches
`timeout`, and else sleeps for `wait_hint` and repeats.  `none` means the
fuel ran out before the loop broke (used to reason about termination). -/
def poll_state_loop (p : Provider) (state : ServiceState) (timeout wait_hint : Nat) :
    Nat → Nat → Nat → Option (Except Nat PollStatus × List Event)
  | 0, _, _ => none
  | fuel + 1, idx, wait_time =>
    match p.queryRes idx with
    | .error e => some (.error e, [Event.queryErr e])
    | .ok st =>
      if st.current_state = state then
        some (.ok (PollStatus.NoTimeout st), [Event.query st])
      else
        if timeout ≤ wait_time + wait_hint then
          some (.ok (PollStatus.Timeout st), [Event.query st])
        else
          match poll_state_loop p state timeout wait_hint fuel (idx + 1) (wait_time + wait_hint) with
          | none => none
          | some (r, tr) => some (r, Event.query st :: Event.sleep wait_hint :: tr)

/-- poll_state: run the poll loop from query index 0 with zero
accumulated wait (wait_index is only logged and is not modelled). -/
def poll_state (p : Provider) (state : ServiceState) (timeout wait_hint fuel : Nat) :
    Option (Except Nat PollStatus × List Event) :=
  poll_state_loop p state timeout wait_hint fuel 0 0

/-- ensure_state: run poll_state and turn a `Timeout` outcome into the
dedicated `PollTimeout` error carrying the observed state, the expected
state and the timeout; `idx` is the index of the first query. -/
def ensure_state (p : Provider) (state : ServiceState) (timeout wait_hint idx fuel : Nat) :
    Option (Except Error ServiceStatus × List Event) :=
  match poll_state_loop p state timeout wait_hint fuel idx 0 with
  | none => none
  | some (.error e, tr) => some (.error (.Service e), tr)
  | some (.ok (PollStatus.Timeout st), tr) =>
      some (.error (.PollTimeout st.current_state state timeout), tr)
  | some (.ok (PollStatus.NoTimeout st), tr) => some (.ok st, tr)

/-- The tail of restart_service after the conditional stop: wait for
Stopped (10 s timeout, 1 s interval, first poll query at index 1), log
the exit code (not modelled: logging only), then start and emit the
restarted event.  `tr` is the trace accumulated so far. -/
def restart_after_stop (p : Provider) (fuel : Nat) (tr : List Event) :
    Option (Except Error Unit × List Event) :=
  match ensure_state p ServiceState.Stopped 10 1 1 fuel with
  | none => none
  | some (.error e, tr2) => some (.error e, tr ++ tr2)
  | some (.ok _, tr2) =>
    match p.startRes with
    | .error e => some (.error (.Service e), tr ++ tr2 ++ [Event.startCall])
    | .ok _ => some (.ok (), tr ++ tr2 ++ [Event.startCall, Event.emitRestart])

/-- restart_service: open, query status; if the state is StartPending or
Running issue stop (its error propagates); then wait for Stopped and
start (restart_after_stop). -/
def restart_service (p : Provider) (fuel : Nat) :
    Option (Except Error Unit × List Event) :=
  match open_service p with
  | (.error e, tr) => some (.error e, tr)
  | (.ok _, tr0) =>
    match p.queryRes 0 with
    | .error e => some (.error (.Service e), tr0 ++ [Event.queryErr e])
    | .ok st =>
      if st.current_state = ServiceState.StartPending
          ∨ st.current_state = ServiceState.Running then
        match p.stopRes with
        | .error e => some (.error (.Service e), tr0 ++ [Event.query st, Event.stopCall])
        | .ok _ => restart_after_stop p fuel (tr0 ++ [Event.query st, Event.stopCall])
      else
        restart_after_stop p fuel (tr0 ++ [Event.query st])

/-- The tail of uninstall_service after the conditional stop: wait for
Stopped (10 s / 1 s, first poll query at index 1), log the exit code,
then delete the service registration and emit the uninstalled event. -/
def uninstall_after_stop (p : Provider) (fuel : Nat) (tr : List Event) :
    Option (Except Error Unit × List Event) :=
  match ensure_state p ServiceState.Stopped 10 1 1 fuel with
  | none => none
  | some (.error e, tr2) => some (.error e, tr ++ tr2)
  | some (.ok _, tr2) =>
    match p.deleteRes with
    | .error e => some (.error (.Service e), tr ++ tr2 ++ [Event.deleteCall])
    | .ok _ => some (.ok (), tr ++ tr2 ++ [Event.deleteCall, Event.emitUninstall])

/-- uninstall_service: open, query status; if not already Stopped issue
stop (error propagates) and emit the stopped event (already_stopped =
false); then wait for Stopped and delete (uninstall_after_stop). -/
def uninstall_service (p : Provider) (fuel : Nat) :
    Option (Except Error Unit × List Event) :=
  match open_service p with
  | (.error e, tr) => some (.error e, tr)
  | (.ok _, tr0) =>
    match p.queryRes 0 with
    | .error e => some (.error (.Service e), tr0 ++ [Event.queryErr e])
    | .ok st =>
      if st.current_state ≠ ServiceState.Stopped then
        match p.stopRes with
        | .error e => some (.error (.Service e), tr0 ++ [Event.query st, Event.stopCall])
        | .ok _ =>
            uninstall_after_stop p fuel
              (tr0 ++ [Event.query st, Event.stopCall, Event.emitStop false])
      else
        uninstall_after_stop p fuel (tr0 ++ [Event.query st])

/-- The accepted-controls set reported to the OS: empty or {Stop}. -/
inductive ControlsAccepted
  | empty
  | stop
  deriving DecidableEq, Repr

/-- The full service status record reported through the status handle in
run_service (service_type is the constant OWN_PROCESS and process_id is
None in both reports; neither is modelled). -/
structure FullStatus where
  current_state : ServiceState
  controls_accepted : ControlsAccepted
  exit_code : ServiceExitCode
  checkpoint : Nat
  wait_hint : Nat
  deriving DecidableEq, Repr

/-- The outcome of Application::prepare together with the later result of
awaiting topology.stop(): `topologyStopOk` is true when the topology shut
down cleanly. -/
structure App where
  topologyStopOk : Bool
  deriving DecidableEq, Repr

/-- The external collaborators of run_service, each fallible as in the
source: the outcome of registering the control-event handler
(service_control_handler::register), the outcome of the i-th
set_service_status call made through the status handle, and the outcome
of Application::prepare (with the bootstrap error abstracted to its
numeric code). -/
structure RunEnv where
  registerRes : Except Nat Unit
  reportRes : Nat → Except Nat Unit
  prepare : Except Nat App

/-- run_service, returning its Result and the sequence of status records
passed to set_service_status, in call order (a record is listed for
every attempted call, also when that call itself fails).  Mirroring the
source's `?` propagation: a failed register returns before any report; on
successful bootstrap the Running report (accepted controls {Stop}, exit
code Win32(NO_ERROR)) is made and its failure returns before the
shutdown wait; then the stop signal is awaited and topology.stop()'s
result is mapped to Win32(NO_ERROR) or Win32(ERROR_FAIL_SHUTDOWN), while
a failed bootstrap yields ServiceSpecific(error code); finally the
Stopped record with that code and empty accepted controls is reported,
its own failure only affecting the returned Result. -/
def run_service (env : RunEnv) : Except Nat Unit × List FullStatus :=
  match env.registerRes with
  | .error e => (.error e, [])
  | .ok _ =>
    match env.prepare with
    | .ok app =>
      let running : FullStatus :=
        { current_state := ServiceState.Running,
          controls_accepted := ControlsAccepted.stop,
          exit_code := ServiceExitCode.Win32 NO_ERROR, checkpoint := 0, wait_hint := 0 }
      match env.reportRes 0 with
      | .error e => (.error e, [running])
      | .ok _ =>
        let code :=
          if app.topologyStopOk then ServiceExitCode.Win32 NO_ERROR
          else ServiceExitCode.Win32 ERROR_FAIL_SHUTDOWN
        let final : FullStatus :=
          { current_state := ServiceState.Stopped,
            controls_accepted := ControlsAccepted.empty,
            exit_code := code, checkpoint := 0, wait_hint := 0 }
        match env.reportRes 1 with
        | .error e => (.error e, [running, final])
        | .ok _ => (.ok (), [running, final])
    | .error e =>
      let final : FullStatus :=
        { current_state := ServiceState.Stopped,
          controls_accepted := ControlsAccepted.empty,
          exit_code := ServiceExitCode.ServiceSpecific e, checkpoint := 0, wait_hint := 0 }
      match env.reportRes 0 with
      | .error e2 => (.error e2, [final])
      | .ok _ => (.ok (), [final])

/-- A provider whose calls all succeed and whose i-th status query
returns `q i`. -/
def mkProvider (q : Nat → ServiceStatus) : Provider where
  connectRes := .ok ()
  openRes := .ok ()
  queryRes := fun i => .ok (q i)
  startRes := .ok ()
  stopRes := .ok ()
  deleteRes := .ok ()

/-- A provider whose connect succeeds but whose open fails with cause 5. -/
def failOpenProvider : Provider where
  connectRes := .ok ()
  openRes := .error 5
  queryRes := fun _ => .ok { current_state := .Stopped, exit_code := .Win32 NO_ERROR }
  startRes := .ok ()
  stopRes := .ok ()
  deleteRes := .ok ()

/-- The trace of a poll run with `m + 1` status queries starting at query
index `idx`: queries separated by sleeps of one interval `I`, with no
sleep after the last query. -/
def pollTrace (q : Nat → ServiceStatus) (I : Nat) : Nat → Nat → List Event
  | idx, 0 => [Event.query (q idx)]
  | idx, m + 1 => Event.query (q idx) :: Event.sleep I :: pollTrace q I (idx + 1) m

/-- Number of status-query events in a trace. -/
def queryCount : List Event → Nat
  | [] => 0
  | Event.query _ :: tr => queryCount tr + 1
  | _ :: tr => queryCount tr

/-- Number of sleep events in a trace. -/
def sleepCount : List Event → Nat
  | [] => 0
  | Event.sleep _ :: tr => sleepCount tr + 1
  | _ :: tr => sleepCount tr

/-- Between any two query events of the trace there is a sleep of one
interval `I` (no busy-spinning). -/
def sleepSeparated (I : Nat) (tr : List Event) : Prop :=
  ∀ l1 s1 l2 s2 l3, tr = l1 ++ Event.query s1 :: (l2 ++ Event.query s2 :: l3) →
    Event.sleep I ∈ l2

/-- Events a poll loop can produce: queries, query errors and sleeps. -/
def isPollEvent : Event → Bool
  | .query _ => true
  | .queryErr _ => true
  | .sleep _ => true
  | _ => false

/-- One-step unfolding of the poll loop. -/
lemma poll_state_loop_succ (p : Provider) (s : ServiceState) (T I fuel idx w : Nat) :
    poll_state_loop p s T I (fuel + 1) idx w =
      (match p.queryRes idx with
       | .error e => some (.error e, [Event.queryErr e])
       | .ok st =>
         if st.current_state = s then
           some (.ok (PollStatus.NoTimeout st), [Event.query st])
         else
           if T ≤ w + I then
             some (.ok (PollStatus.Timeout st), [Event.query st])
           else
             match poll_state_loop p s T I fuel (idx + 1) (w + I) with
             | none => none
             | some (r, tr) => some (r, Event.query st :: Event.sleep I :: tr)) := rfl

/-- Every event of a poll-loop trace is a query, a query error or a
sleep. -/
lemma poll_loop_events (p : Provider) (s : ServiceState) (T I : Nat) :
    ∀ fuel idx w r tr, poll_state_loop p s T I fuel idx w = some (r, tr) →
      ∀ e ∈ tr, isPollEvent e = true := by
  intro fuel
  induction fuel with
  | zero => intro idx w r tr h; exact absurd h (by simp [poll_state_loop])
  | succ fuel ih =>
    intro idx w r tr h
    rw [poll_state_loop_succ] at h
    cases hq : p.queryRes idx with
    | error e =>
      simp only [hq] at h
      obtain ⟨-, htr⟩ := Prod.mk.inj (Option.some.inj h)
      subst htr
      intro x hx
      simp only [List.mem_singleton] at hx
      subst hx
      rfl
    | ok st =>
      simp only [hq] at h
      by_cases hm : st.current_state = s
      · rw [if_pos hm] at h
        obtain ⟨-, htr⟩ := Prod.mk.inj (Option.some.inj h)
        subst htr
        intro x hx
        simp only [List.mem_singleton] at hx
        subst hx
        rfl
      · rw [if_neg hm] at h
        by_cases ht : T ≤ w + I
        · rw [if_pos ht] at h
          obtain ⟨-, htr⟩ := Prod.mk.inj (Option.some.inj h)
          subst htr
          intro x hx
          simp only [List.mem_singleton] at hx
          subst hx
          rfl
        · rw [if_neg ht] at h
          cases hrec : poll_state_loop p s T I fuel (idx + 1) (w + I) with
          | none => rw [hrec] at h; exact absurd h (by simp)
          | some pr =>
            obtain ⟨r', tr'⟩ := pr
            rw [hrec] at h
            obtain ⟨-, htr⟩ := Prod.mk.inj (Option.some.inj h)
            subst htr
            intro x hx
            simp only [List.mem_cons] at hx
            rcases hx with rfl | rfl | hx
            · rfl
            · rfl
            · exact ih (idx + 1) (w + I) r' tr' hrec x hx

/-- A `NoTimeout` outcome of the poll loop means the target state was
actually observed: the returned status has the target state and its
query event is in the trace. -/
lemma poll_loop_noTimeout_mem (p : Provider) (s : ServiceState) (T I : Nat) :
    ∀ fuel idx w st tr,
      poll_state_loop p s T I fuel idx w = some (.ok (PollStatus.NoTimeout st), tr) →
      st.current_state = s ∧ Event.query st ∈ tr := by
  intro fuel
  induction fuel with
  | zero => intro idx w st tr h; exact absurd h (by simp [poll_state_loop])
  | succ fuel ih =>
    intro idx w st tr h
    rw [poll_state_loop_succ] at h
    cases hq : p.queryRes idx with
    | error e =>
      simp only [hq] at h
      exact absurd (Prod.mk.inj (Option.some.inj h)).1 (by simp)
    | ok st0 =>
      simp only [hq] at h
      by_cases hm : st0.current_state = s
      · rw [if_pos hm] at h
        obtain ⟨hr, htr⟩ := Prod.mk.inj (Option.some.inj h)
        obtain rfl : st0 = st := by simpa using hr
        subst htr
        exact ⟨hm, by simp⟩
      · rw [if_neg hm] at h
        by_cases ht : T ≤ w + I
        · rw [if_pos ht] at h
          exact absurd (Prod.mk.inj (Option.some.inj h)).1 (by simp)
        · rw [if_neg ht] at h
          cases hrec : poll_state_loop p s T I fuel (idx + 1) (w + I) with
          | none => rw [hrec] at h; exact absurd h (by simp)
          | some pr =>
            obtain ⟨r', tr'⟩ := pr
            rw [hrec] at h
            obtain ⟨hr, htr⟩ := Prod.mk.inj (Option.some.inj h)
            subst hr
            subst htr
            obtain ⟨h1, h2⟩ := ih (idx + 1) (w + I) st tr' hrec
            exact ⟨h1, by simp [h2]⟩

/-- A trace all of whose events are poll events contains no start, stop
or delete call and no emitted lifecycle event. -/
lemma poll_events_not_mem (tr : List Event) (h : ∀ e ∈ tr, isPollEvent e = true) :
    Event.startCall ∉ tr ∧ Event.stopCall ∉ tr ∧ Event.deleteCall ∉ tr := by
  refine ⟨fun hm => ?_, fun hm => ?_, fun hm => ?_⟩ <;>
    simpa [isPollEvent] using h _ hm

/-- The poll trace with m+1 queries has m+1 query events. -/
lemma pollTrace_queryCount (q : Nat → ServiceStatus) (I : Nat) :
    ∀ m idx, queryCount (pollTrace q I idx m) = m + 1 := by
  intro m
  induction m with
  | zero => intro idx; rfl
  | succ m ih => intro idx; simp [pollTrace, queryCount, ih]

/-- The poll trace with m+1 queries has m sleep events. -/
lemma pollTrace_sleepCount (q : Nat → ServiceStatus) (I : Nat) :
    ∀ m idx, sleepCount (pollTrace q I idx m) = m := by
  intro m
  induction m with
  | zero => intro idx; rfl
  | succ m ih => intro idx; simp [pollTrace, sleepCount, ih]

/-- The last event of a poll trace is its last (m+1st) query: there is
no sleep after the final query. -/
lemma pollTrace_getLast (q : Nat → ServiceStatus) (I : Nat) :
    ∀ m idx, (pollTrace q I idx m).getLast? = some (Event.query (q (idx + m))) := by
  intro m
  induction m with
  | zero => intro idx; rfl
  | succ m ih =>
    intro idx
    have hne : pollTrace q I (idx + 1) m ≠ [] := by
      cases m <;> simp [pollTrace]
    have hsplit : pollTrace q I idx (m + 1) =
        [Event.query (q idx), Event.sleep I] ++ pollTrace q I (idx + 1) m := rfl
    rw [hsplit, List.getLast?_append_of_ne_nil _ hne, ih (idx + 1)]
    have harith : idx + 1 + m = idx + (m + 1) := by omega
    rw [harith]

/-- Between any two query events of a poll trace there is a sleep of one
interval. -/
lemma pollTrace_sleepSeparated (q : Nat → ServiceStatus) (I : Nat) :
    ∀ m idx, sleepSeparated I (pollTrace q I idx m) := by
  intro m
  induction m with
  | zero =>
    intro idx l1 s1 l2 s2 l3 h
    exfalso
    have hlen := congrArg List.length h
    simp [pollTrace] at hlen
    omega
  | succ m ih =>
    intro idx l1 s1 l2 s2 l3 h
    simp only [pollTrace] at h
    cases l1 with
    | nil =>
      rw [List.nil_append] at h
      injection h with h1 h2
      cases l2 with
      | nil =>
        rw [List.nil_append] at h2
        injection h2 with h3 h4
        simp at h3
      | cons e l2' =>
        rw [List.cons_append] at h2
        injection h2 with h3 h4
        rw [← h3]
        exact List.mem_cons_self _ _
    | cons e1 l1' =>
      rw [List.cons_append] at h
      injection h with h1 h2
      cases l1' with
      | nil =>
        rw [List.nil_append] at h2
        injection h2 with h3 h4
        simp at h3
      | cons e2 l1'' =>
        rw [List.cons_append] at h2
        injection h2 with h3 h4
        exact ih (idx + 1) l1'' s1 l2 s2 l3 h4

/-- Query results of mkProvider. -/
lemma mkProvider_query (q : Nat → ServiceStatus) (i : Nat) :
    (mkProvider q).queryRes i = .ok (q i) := rfl

/-- Run of the poll loop against a provider that never reaches the
target state: after k failed iterations whose accumulated wait first
reaches the timeout at iteration k+1, the loop returns `Timeout` with
the last observed status and the alternating query/sleep trace. -/
lemma poll_loop_timeout_run (q : Nat → ServiceStatus) (s : ServiceState) (T I : Nat)
    (hq : ∀ i, (q i).current_state ≠ s) :
    ∀ k idx w fuel, k + 1 ≤ fuel → w + k * I < T → T ≤ w + (k + 1) * I →
      poll_state_loop (mkProvider q) s T I fuel idx w =
        some (.ok (PollStatus.Timeout (q (idx + k))), pollTrace q I idx k) := by
  intro k
  induction k with
  | zero =>
    intro idx w fuel hfuel hlt hge
    obtain ⟨fuel, rfl⟩ : ∃ f, fuel = f + 1 := ⟨fuel - 1, by omega⟩
    rw [poll_state_loop_succ]
    have hm := hq idx
    have ht : T ≤ w + I := by simpa using hge
    simp [mkProvider_query, hm, ht, pollTrace]
  | succ k ihk =>
    intro idx w fuel hfuel hlt hge
    obtain ⟨fuel, rfl⟩ : ∃ f, fuel = f + 1 := ⟨fuel - 1, by omega⟩
    rw [poll_state_loop_succ]
    have hm := hq idx
    have hsm : (k + 1) * I = k * I + I := Nat.succ_mul k I
    have hsm2 : (k + 1 + 1) * I = (k + 1) * I + I := Nat.succ_mul (k + 1) I
    have hIle : I ≤ (k + 1) * I := Nat.le_mul_of_pos_left I (Nat.succ_pos k)
    have ht : ¬ (T ≤ w + I) := by omega
    have hrec := ihk (idx + 1) (w + I) fuel (by omega) (by omega) (by omega)
    have hidx : idx + 1 + k = idx + (k + 1) := by omega
    rw [hidx] at hrec
    simp [mkProvider_query, hm, ht, hrec, pollTrace]

/-- Run of the poll loop against a provider that first reaches the
target state on the (m+1)-st query, before the timeout: the loop returns
`NoTimeout` with that status and the alternating query/sleep trace. -/
lemma poll_loop_success_run (q : Nat → ServiceStatus) (s : ServiceState) (T I : Nat) :
    ∀ m idx w fuel, m + 1 ≤ fuel →
      (∀ j, j < m → (q (idx + j)).current_state ≠ s) →
      (q (idx + m)).current_state = s →
      w + m * I < T →
      poll_state_loop (mkProvider q) s T I fuel idx w =
        some (.ok (PollStatus.NoTimeout (q (idx + m))), pollTrace q I idx m) := by
  intro m
  induction m with
  | zero =>
    intro idx w fuel hfuel hbef hit hlt
    obtain ⟨fuel, rfl⟩ : ∃ f, fuel = f + 1 := ⟨fuel - 1, by omega⟩
    rw [poll_state_loop_succ]
    simp only [Nat.add_zero] at hit
    simp [mkProvider_query, hit, pollTrace]
  | succ m ihm =>
    intro idx w fuel hfuel hbef hit hlt
    obtain ⟨fuel, rfl⟩ : ∃ f, fuel = f + 1 := ⟨fuel - 1, by omega⟩
    rw [poll_state_loop_succ]
    have hm0 : (q idx).current_state ≠ s := by
      have h0 := hbef 0 (Nat.succ_pos m)
      simpa using h0
    have hsm : (m + 1) * I = m * I + I := Nat.succ_mul m I
    have hIle : I ≤ (m + 1) * I := Nat.le_mul_of_pos_left I (Nat.succ_pos m)
    have ht : ¬ (T ≤ w + I) := by omega
    have hrec := ihm (idx + 1) (w + I) fuel (by omega)
      (fun j hj => by
        have hx := hbef (j + 1) (by omega)
        have hidx : idx + (j + 1) = idx + 1 + j := by omega
        rw [hidx] at hx
        exact hx)
      (by
        have hidx : idx + (m + 1) = idx + 1 + m := by omega
        rw [← hidx]
        exact hit)
      (by omega)
    have hidx : idx + 1 + m = idx + (m + 1) := by omega
    rw [hidx] at hrec
    simp [mkProvider_query, hm0, ht, hrec, pollTrace]

/-- Splitting a list at an element that occurs neither in the prefix X
nor in the suffix Y is unique. -/
lemma split_unique {α : Type} {X Y l1 l2 : List α} {e : α}
    (h : X ++ e :: Y = l1 ++ e :: l2) (hX : e ∉ X) (hY : e ∉ Y) :
    l1 = X ∧ l2 = Y := by
  induction X generalizing l1 with
  | nil =>
    cases l1 with
    | nil =>
      simp only [List.nil_append] at h
      injection h with h1 h2
      exact ⟨rfl, h2.symm⟩
    | cons a l1' =>
      simp only [List.nil_append, List.cons_append] at h
      injection h with h1 h2
      exact absurd (by rw [h2]; exact List.mem_append_right l1' (List.mem_cons_self e l2)) hY
  | cons x X' ih =>
    cases l1 with
    | nil =>
      simp only [List.cons_append, List.nil_append] at h
      injection h with h1 h2
      subst h1
      exact absurd (List.mem_cons_self _ _) hX
    | cons a l1' =>
      simp only [List.cons_append] at h
      injection h with h1 h2
      obtain ⟨hl, hr⟩ := ih h2 (fun hm => hX (List.mem_cons_of_mem _ hm))
      subst h1
      exact ⟨by rw [hl], hr⟩

/-- Splitting a trace of the shape prefix ++ poll trace ++ e :: rest at
the unique occurrence of e recovers that decomposition. -/
lemma split_at_unique_elem (trIn ptr rest tr : List Event) (e : Event)
    (hIn : e ∉ trIn) (hp : e ∉ ptr) (hrest : e ∉ rest)
    (htr : tr = trIn ++ ptr ++ e :: rest) :
    ∀ l1 l2, tr = l1 ++ e :: l2 → l1 = trIn ++ ptr ∧ l2 = rest := by
  intro l1 l2 hsplit
  rw [htr] at hsplit
  have heq : (trIn ++ ptr) ++ e :: rest = l1 ++ e :: l2 := hsplit.symm.symm
  have hnotin : e ∉ trIn ++ ptr := by
    simp only [List.mem_append]
    rintro (hx | hx)
    · exact hIn hx
    · exact hp hx
  exact split_unique heq hnotin hrest

/-- If a trace is an input prefix without start calls, followed by a
poll trace without start calls and then at most a start call and the
restarted event, then no stop call follows any start call in it. -/
lemma no_stop_after_start_cases (trIn ptr tr : List Event)
    (hInS : Event.startCall ∉ trIn) (hpS : Event.startCall ∉ ptr)
    (hcase : tr = trIn ++ ptr ∨ tr = trIn ++ ptr ++ [Event.startCall]
      ∨ tr = trIn ++ ptr ++ [Event.startCall, Event.emitRestart]) :
    ∀ l1 l2, tr = l1 ++ Event.startCall :: l2 → Event.stopCall ∉ l2 := by
  intro l1 l2 hsplit
  have hnotin : Event.startCall ∉ trIn ++ ptr := by
    simp only [List.mem_append]
    rintro (hx | hx)
    · exact hInS hx
    · exact hpS hx
  rcases hcase with rfl | rfl | rfl
  · exfalso
    apply hnotin
    rw [hsplit]
    exact List.mem_append_right _ (List.mem_cons_self _ _)
  · obtain ⟨-, hl2⟩ := split_unique hsplit hnotin (by simp)
    rw [hl2]
    simp
  · obtain ⟨-, hl2⟩ := split_unique hsplit hnotin (by simp)
    rw [hl2]
    simp

/-- Exhaustive case analysis of restart_after_stop: the poll runs first
(at query index 1), its trace follows the accumulated input trace, and
the start call appears only after a NoTimeout poll outcome. -/
lemma restart_after_stop_spec (p : Provider) (fuel : Nat) (trIn : List Event)
    (res : Except Error Unit) (tr : List Event)
    (h : restart_after_stop p fuel trIn = some (res, tr)) :
    ∃ rp ptr, poll_state_loop p ServiceState.Stopped 10 1 fuel 1 0 = some (rp, ptr) ∧
      ((∃ e, rp = .error e ∧ res = .error (.Service e) ∧ tr = trIn ++ ptr)
       ∨ (∃ stL, rp = .ok (PollStatus.Timeout stL)
            ∧ res = .error (.PollTimeout stL.current_state ServiceState.Stopped 10)
            ∧ tr = trIn ++ ptr)
       ∨ (∃ stN, rp = .ok (PollStatus.NoTimeout stN)
            ∧ ((∃ e, p.startRes = .error e ∧ res = .error (.Service e)
                  ∧ tr = trIn ++ ptr ++ [Event.startCall])
               ∨ (p.startRes = .ok () ∧ res = .ok ()
                  ∧ tr = trIn ++ ptr ++ [Event.startCall, Event.emitRestart])))) := by
  cases hpoll : poll_state_loop p ServiceState.Stopped 10 1 fuel 1 0 with
  | none =>
    simp only [restart_after_stop, ensure_state, hpoll] at h
    exact absurd h (by simp)
  | some pr =>
    obtain ⟨rp, ptr⟩ := pr
    refine ⟨rp, ptr, rfl, ?_⟩
    cases rp with
    | error e =>
      simp only [restart_after_stop, ensure_state, hpoll, Option.some.injEq,
        Prod.mk.injEq] at h
      obtain ⟨hres, htr⟩ := h
      exact Or.inl ⟨e, rfl, hres.symm, htr.symm⟩
    | ok ps =>
      cases ps with
      | Timeout stL =>
        simp only [restart_after_stop, ensure_state, hpoll, Option.some.injEq,
          Prod.mk.injEq] at h
        obtain ⟨hres, htr⟩ := h
        exact Or.inr (Or.inl ⟨stL, rfl, hres.symm, htr.symm⟩)
      | NoTimeout stN =>
        cases hs : p.startRes with
        | error e =>
          simp only [restart_after_stop, ensure_state, hpoll, hs, Option.some.injEq,
            Prod.mk.injEq] at h
          obtain ⟨hres, htr⟩ := h
          exact Or.inr (Or.inr ⟨stN, rfl, Or.inl ⟨e, rfl, hres.symm, htr.symm⟩⟩)
        | ok u =>
          simp only [restart_after_stop, ensure_state, hpoll, hs, Option.some.injEq,
            Prod.mk.injEq] at h
          obtain ⟨hres, htr⟩ := h
          exact Or.inr (Or.inr ⟨stN, rfl, Or.inr ⟨rfl, hres.symm, htr.symm⟩⟩)

/-- Exhaustive case analysis of uninstall_after_stop: the poll runs
first (at query index 1), its trace follows the accumulated input
trace, and the delete call appears only after a NoTimeout poll
outcome. -/
lemma uninstall_after_stop_spec (p : Provider) (fuel : Nat) (trIn : List Event)
    (res : Except Error Unit) (tr : List Event)
    (h : uninstall_after_stop p fuel trIn = some (res, tr)) :
    ∃ rp ptr, poll_state_loop p ServiceState.Stopped 10 1 fuel 1 0 = some (rp, ptr) ∧
      ((∃ e, rp = .error e ∧ res = .error (.Service e) ∧ tr = trIn ++ ptr)
       ∨ (∃ stL, rp = .ok (PollStatus.Timeout stL)
            ∧ res = .error (.PollTimeout stL.current_state ServiceState.Stopped 10)
            ∧ tr = trIn ++ ptr)
       ∨ (∃ stN, rp = .ok (PollStatus.NoTimeout stN)
            ∧ ((∃ e, p.deleteRes = .error e ∧ res = .error (.Service e)
                  ∧ tr = trIn ++ ptr ++ [Event.deleteCall])
               ∨ (p.deleteRes = .ok () ∧ res = .ok ()
                  ∧ tr = trIn ++ ptr ++ [Event.deleteCall, Event.emitUninstall])))) := by
  cases hpoll : poll_state_loop p ServiceState.Stopped 10 1 fuel 1 0 with
  | none =>
    simp only [uninstall_after_stop, ensure_state, hpoll] at h
    exact absurd h (by simp)
  | some pr =>
    obtain ⟨rp, ptr⟩ := pr
    refine ⟨rp, ptr, rfl, ?_⟩
    cases rp with
    | error e =>
      simp only [uninstall_after_stop, ensure_state, hpoll, Option.some.injEq,
        Prod.mk.injEq] at h
      obtain ⟨hres, htr⟩ := h
      exact Or.inl ⟨e, rfl, hres.symm, htr.symm⟩
    | ok ps =>
      cases ps with
      | Timeout stL =>
        simp only [uninstall_after_stop, ensure_state, hpoll, Option.some.injEq,
          Prod.mk.injEq] at h
        obtain ⟨hres, htr⟩ := h
        exact Or.inr (Or.inl ⟨stL, rfl, hres.symm, htr.symm⟩)
      | NoTimeout stN =>
        cases hs : p.deleteRes with
        | error e =>
          simp only [uninstall_after_stop, ensure_state, hpoll, hs, Option.some.injEq,
            Prod.mk.injEq] at h
          obtain ⟨hres, htr⟩ := h
          exact Or.inr (Or.inr ⟨stN, rfl, Or.inl ⟨e, rfl, hres.symm, htr.symm⟩⟩)
        | ok u =>
          simp only [uninstall_after_stop, ensure_state, hpoll, hs, Option.some.injEq,
            Prod.mk.injEq] at h
          obtain ⟨hres, htr⟩ := h
          exact Or.inr (Or.inr ⟨stN, rfl, Or.inr ⟨rfl, hres.symm, htr.symm⟩⟩)

/-- A provider status function constantly reporting Running. -/
def qRunning : Nat → ServiceStatus := fun _ =>
  { current_state := .Running, exit_code := .Win32 NO_ERROR }

/-- A provider status function reporting Running on the first two
queries and Stopped from the third query on. -/
def qThird : Nat → ServiceStatus := fun i =>
  if i < 2 then { current_state := .Running, exit_code := .Win32 NO_ERROR }
  else { current_state := .Stopped, exit_code := .Win32 NO_ERROR }

/-- Claim C6: for every timeout T = n * I divided evenly by the interval
I > 0 into n ≥ 1 steps, polling a service whose queried state never
equals the target returns Timeout carrying the last observed status
after exactly n status queries (so at most n + 1, and at most
ceil(T/I) = n polls), the trace ends with that query (no sleep after
it), and between every pair of queries there is a sleep of one
interval (no busy-spinning). -/
theorem poll_state_timeout_spec (q : Nat → ServiceStatus) (s : ServiceState)
    (n I fuel : Nat) (hI : 0 < I) (hn : 0 < n) (hfuel : n ≤ fuel)
    (hq : ∀ i, (q i).current_state ≠ s) :
    poll_state (mkProvider q) s (n * I) I fuel =
      some (.ok (PollStatus.Timeout (q (n - 1))), pollTrace q I 0 (n - 1))
    ∧ queryCount (pollTrace q I 0 (n - 1)) = n
    ∧ sleepCount (pollTrace q I 0 (n - 1)) = n - 1
    ∧ (pollTrace q I 0 (n - 1)).getLast? = some (Event.query (q (n - 1)))
    ∧ sleepSeparated I (pollTrace q I 0 (n - 1)) := by
  have hsm : (n - 1) * I + I = n * I := by
    calc (n - 1) * I + I = (n - 1 + 1) * I := (Nat.succ_mul _ _).symm
      _ = n * I := by rw [show n - 1 + 1 = n from by omega]
  have hsm2 : (n - 1 + 1) * I = n * I := by rw [show n - 1 + 1 = n from by omega]
  have hmain := poll_loop_timeout_run q s (n * I) I hq (n - 1) 0 0 fuel
    (by omega) (by omega) (by omega)
  rw [show (0:Nat) + (n - 1) = n - 1 from by omega] at hmain
  refine ⟨hmain, ?_, ?_, ?_, ?_⟩
  · rw [pollTrace_queryCount q I (n - 1) 0]; omega
  · exact pollTrace_sleepCount q I (n - 1) 0
  · rw [pollTrace_getLast q I (n - 1) 0,
      show (0:Nat) + (n - 1) = n - 1 from by omega]
  · exact pollTrace_sleepSeparated q I (n - 1) 0

/-- Witness for C6: a constantly-Running provider polled for Stopped
with timeout 10 and interval 1. -/
theorem poll_state_timeout_spec_witness :
    poll_state (mkProvider qRunning) ServiceState.Stopped (10 * 1) 1 10 =
      some (.ok (PollStatus.Timeout (qRunning (10 - 1))), pollTrace qRunning 1 0 (10 - 1))
    ∧ queryCount (pollTrace qRunning 1 0 (10 - 1)) = 10
    ∧ sleepCount (pollTrace qRunning 1 0 (10 - 1)) = 10 - 1
    ∧ (pollTrace qRunning 1 0 (10 - 1)).getLast? =
        some (Event.query (qRunning (10 - 1)))
    ∧ sleepSeparated 1 (pollTrace qRunning 1 0 (10 - 1)) :=
  poll_state_timeout_spec qRunning ServiceState.Stopped 10 1 10 (by decide) (by decide)
    (le_refl 10) (fun i => by simp [qRunning])

/-- Claim C7: for every k with 1 ≤ k ≤ n = T/I, polling a service whose
queried state first equals the target on the k-th query returns
NoTimeout carrying that status after exactly k status queries and
exactly k - 1 sleeps, and the trace ends with the successful query (no
sleep after it). -/
theorem poll_state_success_spec (q : Nat → ServiceStatus) (s : ServiceState)
    (n I k fuel : Nat) (hI : 0 < I) (hk : 1 ≤ k) (hkn : k ≤ n) (hfuel : k ≤ fuel)
    (hbef : ∀ j, j < k - 1 → (q j).current_state ≠ s)
    (hit : (q (k - 1)).current_state = s) :
    poll_state (mkProvider q) s (n * I) I fuel =
      some (.ok (PollStatus.NoTimeout (q (k - 1))), pollTrace q I 0 (k - 1))
    ∧ queryCount (pollTrace q I 0 (k - 1)) = k
    ∧ sleepCount (pollTrace q I 0 (k - 1)) = k - 1
    ∧ (pollTrace q I 0 (k - 1)).getLast? = some (Event.query (q (k - 1))) := by
  have hsm : (k - 1) * I + I = k * I := by
    calc (k - 1) * I + I = (k - 1 + 1) * I := (Nat.succ_mul _ _).symm
      _ = k * I := by rw [show k - 1 + 1 = k from by omega]
  have hkn2 : k * I ≤ n * I := mul_le_mul_right' hkn I
  have hmain := poll_loop_success_run q s (n * I) I (k - 1) 0 0 fuel
    (by omega)
    (fun j hj => by rw [show (0:Nat) + j = j from by omega]; exact hbef j hj)
    (by rw [show (0:Nat) + (k - 1) = k - 1 from by omega]; exact hit)
    (by omega)
  rw [show (0:Nat) + (k - 1) = k - 1 from by omega] at hmain
  refine ⟨hmain, ?_, ?_, ?_⟩
  · rw [pollTrace_queryCount q I (k - 1) 0]; omega
  · exact pollTrace_sleepCount q I (k - 1) 0
  · rw [pollTrace_getLast q I (k - 1) 0,
      show (0:Nat) + (k - 1) = k - 1 from by omega]

/-- Witness for C7: a provider reaching Stopped on the third query,
polled with timeout 10 and interval 1. -/
theorem poll_state_success_spec_witness :
    poll_state (mkProvider qThird) ServiceState.Stopped (10 * 1) 1 5 =
      some (.ok (PollStatus.NoTimeout (qThird (3 - 1))), pollTrace qThird 1 0 (3 - 1))
    ∧ queryCount (pollTrace qThird 1 0 (3 - 1)) = 3
    ∧ sleepCount (pollTrace qThird 1 0 (3 - 1)) = 3 - 1
    ∧ (pollTrace qThird 1 0 (3 - 1)).getLast? = some (Event.query (qThird (3 - 1))) :=
  poll_state_success_spec qThird ServiceState.Stopped 10 1 3 5 (by decide) (by decide)
    (by decide) (by decide)
    (fun j hj => by
      norm_num at hj
      interval_cases j <;> decide)
    (by decide)

/-- Claim C10: with a positive interval the poll loop terminates for
every call (for every provider, start index and accumulated wait there
is enough fuel for the loop to break), while with interval 0, a positive
timeout and a provider whose queries succeed but never report the target
state, the loop never exits: every amount of fuel is exhausted. -/
theorem poll_state_termination (p : Provider) (s : ServiceState) (T I : Nat) :
    (0 < I → ∀ idx w, ∃ fuel r, poll_state_loop p s T I fuel idx w = some r)
    ∧ (I = 0 → 0 < T →
        (∀ i, ∃ st, p.queryRes i = .ok st ∧ st.current_state ≠ s) →
        ∀ fuel, poll_state p s T I fuel = none) := by
  constructor
  · intro hI idx w
    suffices hgen : ∀ d idx w, T - w ≤ d →
        ∃ fuel r, poll_state_loop p s T I fuel idx w = some r from
      hgen (T - w) idx w (le_refl _)
    intro d
    induction d with
    | zero =>
      intro idx w hd
      cases hq : p.queryRes idx with
      | error e =>
        exact ⟨1, (.error e, [Event.queryErr e]), by rw [poll_state_loop_succ, hq]⟩
      | ok st =>
        by_cases hm : st.current_state = s
        · refine ⟨1, (.ok (.NoTimeout st), [Event.query st]), ?_⟩
          rw [poll_state_loop_succ, hq]
          simp [hm]
        · refine ⟨1, (.ok (.Timeout st), [Event.query st]), ?_⟩
          rw [poll_state_loop_succ, hq]
          have hT : T ≤ w + I := by omega
          simp [hm, hT]
    | succ d ihd =>
      intro idx w hd
      cases hq : p.queryRes idx with
      | error e =>
        exact ⟨1, (.error e, [Event.queryErr e]), by rw [poll_state_loop_succ, hq]⟩
      | ok st =>
        by_cases hm : st.current_state = s
        · refine ⟨1, (.ok (.NoTimeout st), [Event.query st]), ?_⟩
          rw [poll_state_loop_succ, hq]
          simp [hm]
        · by_cases hT : T ≤ w + I
          · refine ⟨1, (.ok (.Timeout st), [Event.query st]), ?_⟩
            rw [poll_state_loop_succ, hq]
            simp [hm, hT]
          · obtain ⟨fuel, ⟨r1, tr1⟩, hr⟩ := ihd (idx + 1) (w + I) (by omega)
            refine ⟨fuel + 1, (r1, Event.query st :: Event.sleep I :: tr1), ?_⟩
            rw [poll_state_loop_succ, hq]
            simp [hm, hT, hr]
  · intro hI0 hT hq
    subst hI0
    suffices hgen : ∀ fuel idx w, w < T → poll_state_loop p s T 0 fuel idx w = none by
      intro fuel
      exact hgen fuel 0 0 hT
    intro fuel
    induction fuel with
    | zero => intro idx w hw; rfl
    | succ fuel ih =>
      intro idx w hw
      obtain ⟨st, hqs, hne⟩ := hq idx
      rw [poll_state_loop_succ, hqs]
      simp only [if_neg hne]
      have hT2 : ¬ (T ≤ w + 0) := by omega
      simp only [if_neg hT2]
      rw [ih (idx + 1) (w + 0) (by omega)]

/-- Witness for C10: on a constantly-Running provider, polling for
Stopped with interval 1 terminates, and with interval 0 it runs out of
any amount of fuel. -/
theorem poll_state_termination_witness :
    (∃ fuel r, poll_state_loop (okProvider ServiceState.Running)
        ServiceState.Stopped 10 1 fuel 0 0 = some r)
    ∧ poll_state (okProvider ServiceState.Running) ServiceState.Stopped 10 0 3 = none := by
  constructor
  · exact (poll_state_termination (okProvider ServiceState.Running)
      ServiceState.Stopped 10 1).1 (by decide) 0 0
  · exact (poll_state_termination (okProvider ServiceState.Running)
      ServiceState.Stopped 10 0).2 rfl (by decide)
      (fun i => ⟨{ current_state := .Running, exit_code := .Win32 NO_ERROR }, rfl, by decide⟩) 3

/-- Claim C4: in every execution of restart_service, a stop call is
issued whenever the initially queried state is StartPending or Running,
every start call comes after every stop call (no stop follows a start),
and if the poll for Stopped (timeout 10, interval 1) times out, the
operation fails with PollTimeout carrying the observed state, the
expected state Stopped and the timeout, and start is never called. -/
theorem restart_stop_before_start (p : Provider) (fuel : Nat)
    (res : Except Error Unit) (tr : List Event)
    (h : restart_service p fuel = some (res, tr)) :
    (p.connectRes = .ok () → p.openRes = .ok () →
      ∀ st, p.queryRes 0 = .ok st →
      st.current_state = ServiceState.StartPending
        ∨ st.current_state = ServiceState.Running →
      Event.stopCall ∈ tr)
    ∧ (∀ l1 l2, tr = l1 ++ Event.startCall :: l2 → Event.stopCall ∉ l2)
    ∧ (∀ stL ptr,
        poll_state_loop p ServiceState.Stopped 10 1 fuel 1 0 =
          some (.ok (PollStatus.Timeout stL), ptr) →
        Event.startCall ∉ tr
        ∧ (p.connectRes = .ok () → p.openRes = .ok () →
           ∀ st, p.queryRes 0 = .ok st →
           (st.current_state = ServiceState.StartPending
             ∨ st.current_state = ServiceState.Running → p.stopRes = .ok ()) →
           res = .error (.PollTimeout stL.current_state ServiceState.Stopped 10))) := by
  cases hc : p.connectRes with
  | error e =>
    simp only [restart_service, open_service, hc, Option.some.injEq, Prod.mk.injEq] at h
    obtain ⟨hres, htr⟩ := h
    subst hres htr
    refine ⟨?_, ?_, ?_⟩
    · intro hc'
      simp at hc'
    · intro l1 l2 hsplit
      have hmem : Event.startCall ∈ ([] : List Event) := by
        rw [hsplit]
        exact List.mem_append_right _ (List.mem_cons_self _ _)
      simp at hmem
    · intro stL ptr hpoll
      refine ⟨by simp, ?_⟩
      intro hc'
      simp at hc'
  | ok uc =>
    cases ho : p.openRes with
    | error e =>
      simp only [restart_service, open_service, hc, ho, Option.some.injEq,
        Prod.mk.injEq] at h
      obtain ⟨hres, htr⟩ := h
      subst hres htr
      refine ⟨?_, ?_, ?_⟩
      · intro _ ho'
        simp at ho'
      · intro l1 l2 hsplit
        have hmem : Event.startCall ∈ [Event.emitDoesNotExist] := by
          rw [hsplit]
          exact List.mem_append_right _ (List.mem_cons_self _ _)
        simp at hmem
      · intro stL ptr hpoll
        refine ⟨by simp, ?_⟩
        intro _ ho'
        simp at ho'
    | ok uo =>
      cases hq0 : p.queryRes 0 with
      | error e =>
        simp only [restart_service, open_service, hc, ho, hq0, List.nil_append,
          Option.some.injEq, Prod.mk.injEq] at h
        obtain ⟨hres, htr⟩ := h
        subst hres htr
        refine ⟨?_, ?_, ?_⟩
        · intro _ _ st hq'
          simp at hq'
        · intro l1 l2 hsplit
          have hmem : Event.startCall ∈ [Event.queryErr e] := by
            rw [hsplit]
            exact List.mem_append_right _ (List.mem_cons_self _ _)
          simp at hmem
        · intro stL ptr hpoll
          refine ⟨by simp, ?_⟩
          intro _ _ st hq'
          simp at hq'
      | ok st =>
        by_cases hcond : st.current_state = ServiceState.StartPending
            ∨ st.current_state = ServiceState.Running
        · cases hstop : p.stopRes with
          | error e =>
            simp only [restart_service, open_service, hc, ho, hq0, List.nil_append,
              if_pos hcond, hstop, Option.some.injEq, Prod.mk.injEq] at h
            obtain ⟨hres, htr⟩ := h
            subst hres htr
            refine ⟨?_, ?_, ?_⟩
            · intro _ _ _ _ _
              simp
            · intro l1 l2 hsplit
              have hmem : Event.startCall ∈ [Event.query st, Event.stopCall] := by
                rw [hsplit]
                exact List.mem_append_right _ (List.mem_cons_self _ _)
              simp at hmem
            · intro stL ptr hpoll
              refine ⟨by simp, ?_⟩
              intro _ _ st' hq' himp
              obtain rfl : st = st' := by simpa using hq'
              have hko := himp hcond
              simp at hko
          | ok us =>
            simp only [restart_service, open_service, hc, ho, hq0, List.nil_append,
              if_pos hcond, hstop] at h
            obtain ⟨rp, ptr, hpoll, hdisj⟩ :=
              restart_after_stop_spec p fuel _ res tr h
            have hptrEv := poll_loop_events p ServiceState.Stopped 10 1 fuel 1 0 rp ptr hpoll
            obtain ⟨hpsC, hpsS, hpsD⟩ := poll_events_not_mem ptr hptrEv
            refine ⟨?_, ?_, ?_⟩
            · intro _ _ _ _ _
              rcases hdisj with ⟨e1, -, -, htr⟩ | ⟨stL, -, -, htr⟩ |
                ⟨stN, -, ⟨e1, -, -, htr⟩ | ⟨-, -, htr⟩⟩ <;>
                · rw [htr]
                  simp
            · rcases hdisj with ⟨e1, -, -, htr⟩ | ⟨stL, -, -, htr⟩ |
                ⟨stN, -, ⟨e1, -, -, htr⟩ | ⟨-, -, htr⟩⟩
              · exact no_stop_after_start_cases _ ptr _ (by simp) hpsC (Or.inl htr)
              · exact no_stop_after_start_cases _ ptr _ (by simp) hpsC (Or.inl htr)
              · exact no_stop_after_start_cases _ ptr _ (by simp) hpsC (Or.inr (Or.inl htr))
              · exact no_stop_after_start_cases _ ptr _ (by simp) hpsC (Or.inr (Or.inr htr))
            · intro stL0 ptr0 hpoll0
              have hsame := hpoll.symm.trans hpoll0
              obtain ⟨hrp, hptr⟩ := Prod.mk.inj (Option.some.inj hsame)
              subst hrp
              subst hptr
              rcases hdisj with ⟨e1, hrp', -, -⟩ | ⟨stL', hrp', hres, htr⟩ |
                ⟨stN, hrp', -⟩
              · simp at hrp'
              · obtain rfl : stL' = stL0 := by simpa using hrp'.symm
                refine ⟨?_, fun _ _ _ _ _ => hres⟩
                rw [htr]
                simp only [List.mem_append, List.mem_cons, List.mem_singleton]
                rintro ((hx | hx) | hx)
                · simp at hx
                · simp at hx
                · exact absurd hx hpsC
              · simp at hrp'
        · simp only [restart_service, open_service, hc, ho, hq0, List.nil_append,
            if_neg hcond] at h
          obtain ⟨rp, ptr, hpoll, hdisj⟩ :=
            restart_after_stop_spec p fuel _ res tr h
          have hptrEv := poll_loop_events p ServiceState.Stopped 10 1 fuel 1 0 rp ptr hpoll
          obtain ⟨hpsC, hpsS, hpsD⟩ := poll_events_not_mem ptr hptrEv
          refine ⟨?_, ?_, ?_⟩
          · intro _ _ st' hq' hst'
            obtain rfl : st = st' := by simpa using hq'
            exact absurd hst' hcond
          · rcases hdisj with ⟨e1, -, -, htr⟩ | ⟨stL, -, -, htr⟩ |
              ⟨stN, -, ⟨e1, -, -, htr⟩ | ⟨-, -, htr⟩⟩
            · exact no_stop_after_start_cases _ ptr _ (by simp) hpsC (Or.inl htr)
            · exact no_stop_after_start_cases _ ptr _ (by simp) hpsC (Or.inl htr)
            · exact no_stop_after_start_cases _ ptr _ (by simp) hpsC (Or.inr (Or.inl htr))
            · exact no_stop_after_start_cases _ ptr _ (by simp) hpsC (Or.inr (Or.inr htr))
          · intro stL0 ptr0 hpoll0
            have hsame := hpoll.symm.trans hpoll0
            obtain ⟨hrp, hptr⟩ := Prod.mk.inj (Option.some.inj hsame)
            subst hrp
            subst hptr
            rcases hdisj with ⟨e1, hrp', -, -⟩ | ⟨stL', hrp', hres, htr⟩ |
              ⟨stN, hrp', -⟩
            · simp at hrp'
            · obtain rfl : stL' = stL0 := by simpa using hrp'.symm
              refine ⟨?_, fun _ _ _ _ _ => hres⟩
              rw [htr]
              simp only [List.mem_append, List.mem_cons, List.mem_singleton]
              rintro (hx | hx)
              · simp at hx
              · exact absurd hx hpsC
            · simp at hrp'

/-- Witness for C4: restart on a constantly-Running provider issues the
stop call; the poll for Stopped then times out. -/
theorem restart_stop_before_start_witness :
    Event.stopCall ∈
      ([Event.query { current_state := ServiceState.Running, exit_code := .Win32 NO_ERROR },
        Event.stopCall] ++ pollTrace qRunning 1 1 9) :=
  (restart_stop_before_start (okProvider ServiceState.Running) 12
    (.error (.PollTimeout ServiceState.Running ServiceState.Stopped 10))
    ([Event.query { current_state := ServiceState.Running, exit_code := .Win32 NO_ERROR },
      Event.stopCall] ++ pollTrace qRunning 1 1 9) rfl).1 rfl rfl
    { current_state := ServiceState.Running, exit_code := .Win32 NO_ERROR } rfl (Or.inr rfl)

/-- Claim C5: in every execution of uninstall_service, any delete call
is preceded by a query event observing state Stopped; when the
initially queried state is not Stopped, the trace begins with that
query, the stop call and (on stop success) the stopped event with
already_stopped = false; and a poll timeout fails the operation with
PollTimeout with delete never called. -/
theorem uninstall_delete_after_stopped (p : Provider) (fuel : Nat)
    (res : Except Error Unit) (tr : List Event)
    (h : uninstall_service p fuel = some (res, tr)) :
    (∀ l1 l2, tr = l1 ++ Event.deleteCall :: l2 →
      ∃ stS, stS.current_state = ServiceState.Stopped ∧ Event.query stS ∈ l1)
    ∧ (p.connectRes = .ok () → p.openRes = .ok () →
       ∀ st, p.queryRes 0 = .ok st → st.current_state ≠ ServiceState.Stopped →
       ∃ tr1, tr = Event.query st :: Event.stopCall :: tr1
         ∧ (p.stopRes = .ok () → ∃ tr2, tr1 = Event.emitStop false :: tr2))
    ∧ (∀ stL ptr,
        poll_state_loop p ServiceState.Stopped 10 1 fuel 1 0 =
          some (.ok (PollStatus.Timeout stL), ptr) →
        Event.deleteCall ∉ tr
        ∧ (p.connectRes = .ok () → p.openRes = .ok () →
           ∀ st, p.queryRes 0 = .ok st →
           (st.current_state ≠ ServiceState.Stopped → p.stopRes = .ok ()) →
           res = .error (.PollTimeout stL.current_state ServiceState.Stopped 10))) := by
  cases hc : p.connectRes with
  | error e =>
    simp only [uninstall_service, open_service, hc, Option.some.injEq, Prod.mk.injEq] at h
    obtain ⟨hres, htr⟩ := h
    subst hres htr
    refine ⟨?_, ?_, ?_⟩
    · intro l1 l2 hsplit
      exfalso
      have hmem : Event.deleteCall ∈ ([] : List Event) := by
        rw [hsplit]
        exact List.mem_append_right _ (List.mem_cons_self _ _)
      simp at hmem
    · intro hc'
      simp at hc'
    · intro stL ptr hpoll
      refine ⟨by simp, ?_⟩
      intro hc'
      simp at hc'
  | ok uc =>
    cases ho : p.openRes with
    | error e =>
      simp only [uninstall_service, open_service, hc, ho, Option.some.injEq,
        Prod.mk.injEq] at h
      obtain ⟨hres, htr⟩ := h
      subst hres htr
      refine ⟨?_, ?_, ?_⟩
      · intro l1 l2 hsplit
        exfalso
        have hmem : Event.deleteCall ∈ [Event.emitDoesNotExist] := by
          rw [hsplit]
          exact List.mem_append_right _ (List.mem_cons_self _ _)
        simp at hmem
      · intro _ ho'
        simp at ho'
      · intro stL ptr hpoll
        refine ⟨by simp, ?_⟩
        intro _ ho'
        simp at ho'
    | ok uo =>
      cases hq0 : p.queryRes 0 with
      | error e =>
        simp only [uninstall_service, open_service, hc, ho, hq0, List.nil_append,
          Option.some.injEq, Prod.mk.injEq] at h
        obtain ⟨hres, htr⟩ := h
        subst hres htr
        refine ⟨?_, ?_, ?_⟩
        · intro l1 l2 hsplit
          exfalso
          have hmem : Event.deleteCall ∈ [Event.queryErr e] := by
            rw [hsplit]
            exact List.mem_append_right _ (List.mem_cons_self _ _)
          simp at hmem
        · intro _ _ st hq'
          simp at hq'
        · intro stL ptr hpoll
          refine ⟨by simp, ?_⟩
          intro _ _ st hq'
          simp at hq'
      | ok st =>
        by_cases hcond : st.current_state ≠ ServiceState.Stopped
        · cases hstop : p.stopRes with
          | error e =>
            simp only [uninstall_service, open_service, hc, ho, hq0, List.nil_append,
              if_pos hcond, hstop, Option.some.injEq, Prod.mk.injEq] at h
            obtain ⟨hres, htr⟩ := h
            subst hres htr
            refine ⟨?_, ?_, ?_⟩
            · intro l1 l2 hsplit
              exfalso
              have hmem : Event.deleteCall ∈ [Event.query st, Event.stopCall] := by
                rw [hsplit]
                exact List.mem_append_right _ (List.mem_cons_self _ _)
              simp at hmem
            · intro _ _ st' hq' hst'
              obtain rfl : st = st' := by simpa using hq'
              exact ⟨[], rfl, fun hs' => by simp at hs'⟩
            · intro stL ptr hpoll
              refine ⟨by simp, ?_⟩
              intro _ _ st' hq' himp
              obtain rfl : st = st' := by simpa using hq'
              have hko := himp hcond
              simp at hko
          | ok us =>
            simp only [uninstall_service, open_service, hc, ho, hq0, List.nil_append,
              if_pos hcond, hstop] at h
            obtain ⟨rp, ptr, hpoll, hdisj⟩ :=
              uninstall_after_stop_spec p fuel _ res tr h
            have hptrEv := poll_loop_events p ServiceState.Stopped 10 1 fuel 1 0 rp ptr hpoll
            obtain ⟨hpsC, hpsS, hpsD⟩ := poll_events_not_mem ptr hptrEv
            refine ⟨?_, ?_, ?_⟩
            · intro l1 l2 hsplit
              rcases hdisj with ⟨e1, -, -, htr⟩ | ⟨stL, -, -, htr⟩ |
                ⟨stN, hrp', ⟨e1, -, -, htr⟩ | ⟨-, -, htr⟩⟩
              · exfalso
                rw [htr] at hsplit
                have hmem : Event.deleteCall ∈
                    [Event.query st, Event.stopCall, Event.emitStop false] ++ ptr := by
                  rw [hsplit]
                  exact List.mem_append_right _ (List.mem_cons_self _ _)
                simp only [List.mem_append] at hmem
                rcases hmem with hx | hx
                · simp at hx
                · exact absurd hx hpsD
              · exfalso
                rw [htr] at hsplit
                have hmem : Event.deleteCall ∈
                    [Event.query st, Event.stopCall, Event.emitStop false] ++ ptr := by
                  rw [hsplit]
                  exact List.mem_append_right _ (List.mem_cons_self _ _)
                simp only [List.mem_append] at hmem
                rcases hmem with hx | hx
                · simp at hx
                · exact absurd hx hpsD
              · subst hrp'
                obtain ⟨hstate, hmemq⟩ :=
                  poll_loop_noTimeout_mem p ServiceState.Stopped 10 1 fuel 1 0 stN ptr hpoll
                obtain ⟨hl1, -⟩ := split_at_unique_elem _ ptr [] tr Event.deleteCall
                  (by simp) hpsD (by simp) htr l1 l2 hsplit
                exact ⟨stN, hstate, by rw [hl1]; exact List.mem_append_right _ hmemq⟩
              · subst hrp'
                obtain ⟨hstate, hmemq⟩ :=
                  poll_loop_noTimeout_mem p ServiceState.Stopped 10 1 fuel 1 0 stN ptr hpoll
                obtain ⟨hl1, -⟩ := split_at_unique_elem _ ptr [Event.emitUninstall] tr
                  Event.deleteCall (by simp) hpsD (by simp) htr l1 l2 hsplit
                exact ⟨stN, hstate, by rw [hl1]; exact List.mem_append_right _ hmemq⟩
            · intro _ _ st' hq' hst'
              obtain rfl : st = st' := by simpa using hq'
              rcases hdisj with ⟨e1, -, -, htr⟩ | ⟨stL, -, -, htr⟩ |
                ⟨stN, -, ⟨e1, -, -, htr⟩ | ⟨-, -, htr⟩⟩
              · exact ⟨Event.emitStop false :: ptr, by rw [htr]; rfl,
                  fun _ => ⟨ptr, rfl⟩⟩
              · exact ⟨Event.emitStop false :: ptr, by rw [htr]; rfl,
                  fun _ => ⟨ptr, rfl⟩⟩
              · exact ⟨Event.emitStop false :: (ptr ++ [Event.deleteCall]),
                  by rw [htr]; simp [List.append_assoc], fun _ => ⟨_, rfl⟩⟩
              · exact ⟨Event.emitStop false :: (ptr ++ [Event.deleteCall, Event.emitUninstall]),
                  by rw [htr]; simp [List.append_assoc], fun _ => ⟨_, rfl⟩⟩
            · intro stL0 ptr0 hpoll0
              have hsame := hpoll.symm.trans hpoll0
              obtain ⟨hrp, hptr⟩ := Prod.mk.inj (Option.some.inj hsame)
              subst hrp
              subst hptr
              rcases hdisj with ⟨e1, hrp', -, -⟩ | ⟨stL', hrp', hres, htr⟩ |
                ⟨stN, hrp', -⟩
              · simp at hrp'
              · obtain rfl : stL' = stL0 := by simpa using hrp'.symm
                refine ⟨?_, fun _ _ _ _ _ => hres⟩
                rw [htr]
                simp only [List.mem_append, List.mem_cons, List.mem_singleton]
                rintro ((hx | hx) | hx)
                · simp at hx
                · simp at hx
                · exact absurd hx hpsD
              · simp at hrp'
        · simp only [uninstall_service, open_service, hc, ho, hq0, List.nil_append,
            if_neg hcond] at h
          obtain ⟨rp, ptr, hpoll, hdisj⟩ :=
            uninstall_after_stop_spec p fuel _ res tr h
          have hptrEv := poll_loop_events p ServiceState.Stopped 10 1 fuel 1 0 rp ptr hpoll
          obtain ⟨hpsC, hpsS, hpsD⟩ := poll_events_not_mem ptr hptrEv
          refine ⟨?_, ?_, ?_⟩
          · intro l1 l2 hsplit
            rcases hdisj with ⟨e1, -, -, htr⟩ | ⟨stL, -, -, htr⟩ |
              ⟨stN, hrp', ⟨e1, -, -, htr⟩ | ⟨-, -, htr⟩⟩
            · exfalso
              rw [htr] at hsplit
              have hmem : Event.deleteCall ∈ [Event.query st] ++ ptr := by
                rw [hsplit]
                exact List.mem_append_right _ (List.mem_cons_self _ _)
              simp only [List.mem_append] at hmem
              rcases hmem with hx | hx
              · simp at hx
              · exact absurd hx hpsD
            · exfalso
              rw [htr] at hsplit
              have hmem : Event.deleteCall ∈ [Event.query st] ++ ptr := by
                rw [hsplit]
                exact List.mem_append_right _ (List.mem_cons_self _ _)
              simp only [List.mem_append] at hmem
              rcases hmem with hx | hx
              · simp at hx
              · exact absurd hx hpsD
            · subst hrp'
              obtain ⟨hstate, hmemq⟩ :=
                poll_loop_noTimeout_mem p ServiceState.Stopped 10 1 fuel 1 0 stN ptr hpoll
              obtain ⟨hl1, -⟩ := split_at_unique_elem _ ptr [] tr Event.deleteCall
                (by simp) hpsD (by simp) htr l1 l2 hsplit
              exact ⟨stN, hstate, by rw [hl1]; exact List.mem_append_right _ hmemq⟩
            · subst hrp'
              obtain ⟨hstate, hmemq⟩ :=
                poll_loop_noTimeout_mem p ServiceState.Stopped 10 1 fuel 1 0 stN ptr hpoll
              obtain ⟨hl1, -⟩ := split_at_unique_elem _ ptr [Event.emitUninstall] tr
                Event.deleteCall (by simp) hpsD (by simp) htr l1 l2 hsplit
              exact ⟨stN, hstate, by rw [hl1]; exact List.mem_append_right _ hmemq⟩
          · intro _ _ st' hq' hst'
            obtain rfl : st = st' := by simpa using hq'
            exact absurd hst' hcond
          · intro stL0 ptr0 hpoll0
            have hsame := hpoll.symm.trans hpoll0
            obtain ⟨hrp, hptr⟩ := Prod.mk.inj (Option.some.inj hsame)
            subst hrp
            subst hptr
            rcases hdisj with ⟨e1, hrp', -, -⟩ | ⟨stL', hrp', hres, htr⟩ |
              ⟨stN, hrp', -⟩
            · simp at hrp'
            · obtain rfl : stL' = stL0 := by simpa using hrp'.symm
              refine ⟨?_, fun _ _ _ _ _ => hres⟩
              rw [htr]
              simp only [List.mem_append, List.mem_cons, List.mem_singleton]
              rintro (hx | hx)
              · simp at hx
              · exact absurd hx hpsD
            · simp at hrp'

/-- Witness for C5: uninstall on a constantly-Running provider; the
poll for Stopped times out and delete is never called. -/
theorem uninstall_delete_after_stopped_witness :
    Event.deleteCall ∉
      ([Event.query { current_state := ServiceState.Running, exit_code := .Win32 NO_ERROR },
        Event.stopCall, Event.emitStop false] ++ pollTrace qRunning 1 1 9) :=
  ((uninstall_delete_after_stopped (okProvider ServiceState.Running) 12
    (.error (.PollTimeout ServiceState.Running ServiceState.Stopped 10))
    ([Event.query { current_state := ServiceState.Running, exit_code := .Win32 NO_ERROR },
      Event.stopCall, Event.emitStop false] ++ pollTrace qRunning 1 1 9) rfl).2.2
    { current_state := ServiceState.Running, exit_code := .Win32 NO_ERROR }
    (pollTrace qRunning 1 1 9) rfl).1

/-- Claim C1: parsing a ControlAction succeeds on "install", "uninstall",
"start" and "stop", mapping each to its variant, but the source has no
match arm for "restart", so "restart" fails with the parse error even
though the Restart variant exists — contradicting the documented
five-token CLI surface. -/
theorem from_str_restart_unparsed :
    ControlAction.from_str "install" = .ok ControlAction.Install
    ∧ ControlAction.from_str "uninstall" = .ok ControlAction.Uninstall
    ∧ ControlAction.from_str "start" = .ok ControlAction.Start
    ∧ ControlAction.from_str "stop" = .ok ControlAction.Stop
    ∧ ControlAction.from_str "restart" =
        .error "invalid option restart for ControlAction" :=
  ⟨rfl, rfl, rfl, rfl, rfl⟩

/-- Claim C2: on a provider reporting Running, start_service nonetheless
issues the start call and emits already_started = false, and on a
provider reporting Stopped, stop_service issues the stop call and emits
already_stopped = false — the `!= A || != B` guard never takes the
already-started/already-stopped branch. -/
theorem start_stop_guard_ignores_running_state :
    start_service (okProvider ServiceState.Running) =
      (.ok (), [Event.query { current_state := .Running, exit_code := .Win32 NO_ERROR },
                Event.startCall, Event.emitStart false])
    ∧ stop_service (okProvider ServiceState.Stopped) =
      (.ok (), [Event.query { current_state := .Stopped, exit_code := .Win32 NO_ERROR },
                Event.stopCall, Event.emitStop false]) :=
  ⟨rfl, rfl⟩

/-- Claim C3: the guard `state != StartPending || state != Running` (and
its stop counterpart) is true for every state, so whenever open and the
status query succeed, start_service always issues start, never emits
already_started = true, and on start success returns the trace with
already_started = false; symmetrically for stop_service. -/
theorem start_stop_guard_always_starts (p : Provider) (st : ServiceStatus)
    (hc : p.connectRes = .ok ()) (ho : p.openRes = .ok ())
    (hq : p.queryRes 0 = .ok st) :
    (st.current_state ≠ ServiceState.StartPending
      ∨ st.current_state ≠ ServiceState.Running)
    ∧ Event.startCall ∈ (start_service p).2
    ∧ Event.emitStart true ∉ (start_service p).2
    ∧ (p.startRes = .ok () →
        start_service p =
          (.ok (), [Event.query st, Event.startCall, Event.emitStart false]))
    ∧ (st.current_state ≠ ServiceState.StopPending
        ∨ st.current_state ≠ ServiceState.Stopped)
    ∧ Event.stopCall ∈ (stop_service p).2
    ∧ Event.emitStop true ∉ (stop_service p).2
    ∧ (p.stopRes = .ok () →
        stop_service p =
          (.ok (), [Event.query st, Event.stopCall, Event.emitStop false])) := by
  obtain ⟨cs, ec⟩ := st
  have hop : open_service p = (.ok (), []) := by simp [open_service, hc, ho]
  cases hs : p.startRes <;> cases hss : p.stopRes <;> cases cs <;>
    simp [start_service, stop_service, hop, hq, hs, hss]

/-- Witness for C3: on a provider reporting Running, start is issued. -/
theorem start_stop_guard_always_starts_witness :
    Event.startCall ∈ (start_service (okProvider ServiceState.Running)).2 :=
  (start_stop_guard_always_starts (okProvider ServiceState.Running)
    { current_state := .Running, exit_code := .Win32 NO_ERROR } rfl rfl rfl).2.1

/-- Claim C9: whenever connect succeeds and the underlying open call
fails — with any cause `e`, not only "service not found" — open_service
emits the WindowsServiceDoesNotExist event exactly once (the trace is
exactly that one event) and propagates the wrapped provider error. -/
theorem open_service_emit_on_open_failure (p : Provider) (e : Nat)
    (hc : p.connectRes = .ok ()) (ho : p.openRes = .error e) :
    open_service p = (.error (.Service e), [Event.emitDoesNotExist]) := by
  simp [open_service, hc, ho]

/-- Witness for C9: a provider whose open fails with cause 5. -/
theorem open_service_emit_on_open_failure_witness :
    open_service failOpenProvider = (.error (.Service 5), [Event.emitDoesNotExist]) :=
  open_service_emit_on_open_failure failOpenProvider 5 rfl rfl

/-- The exit-code mapping of the run loop as the spec states it:
bootstrap failure maps to a service-specific code equal to the bootstrap
error's code; a clean topology stop maps to Win32(NO_ERROR); a failed
topology stop maps to Win32(ERROR_FAIL_SHUTDOWN). -/
def specFinalCode : Except Nat App → ServiceExitCode
  | .error e => .ServiceSpecific e
  | .ok app => if app.topologyStopOk then .Win32 NO_ERROR else .Win32 ERROR_FAIL_SHUTDOWN

/-- A run environment whose registration and bootstrap succeed but whose
every set_service_status call fails with cause 7. -/
def failReportEnv : RunEnv where
  registerRes := .ok ()
  reportRes := fun _ => .error 7
  prepare := .ok { topologyStopOk := true }

/-- A run environment whose control-handler registration fails with
cause 5. -/
def failRegisterEnv : RunEnv where
  registerRes := .error 5
  reportRes := fun _ => .ok ()
  prepare := .ok { topologyStopOk := true }

/-- A run environment whose registration and status reports succeed and
whose bootstrap yields a topology whose stop result is `stopOk`. -/
def okRunEnv (stopOk : Bool) : RunEnv where
  registerRes := .ok ()
  reportRes := fun _ => .ok ()
  prepare := .ok { topologyStopOk := stopOk }

/-- Counterexample for C8: when the Running status report fails, its `?`
aborts run_service and the only attempted report has state Running, not
Stopped — no final Stopped report is made; likewise a failed
control-handler registration aborts before any report at all. -/
theorem run_service_report_failure_counterexample :
    run_service failReportEnv =
      (.error 7,
        [{ current_state := ServiceState.Running,
           controls_accepted := ControlsAccepted.stop,
           exit_code := ServiceExitCode.Win32 NO_ERROR, checkpoint := 0, wait_hint := 0 }])
    ∧ ServiceState.Running ≠ ServiceState.Stopped
    ∧ run_service failRegisterEnv = (.error 5, []) :=
  ⟨rfl, by decide, rfl⟩

/-- Claim C8 (amended): whenever the control-handler registration
succeeds and — on the successful-bootstrap path — the Running status
report succeeds, run_service's sequence of attempted status reports ends
with a Stopped report carrying an empty accepted-controls set and the
exit code of the spec's mapping (bootstrap failure → a service-specific
code equal to the bootstrap error's code; clean topology stop →
Win32(NO_ERROR); failed topology stop → the fixed non-zero
Win32(ERROR_FAIL_SHUTDOWN)); this final report is attempted in every
bootstrap and topology outcome, even when the report call itself fails. -/
theorem run_service_final_stopped_report (env : RunEnv)
    (hreg : env.registerRes = .ok ())
    (hrun : ∀ app, env.prepare = .ok app → env.reportRes 0 = .ok ()) :
    (∃ pre, (run_service env).2 =
      pre ++ [{ current_state := ServiceState.Stopped,
                controls_accepted := ControlsAccepted.empty,
                exit_code := specFinalCode env.prepare,
                checkpoint := 0, wait_hint := 0 }])
    ∧ ERROR_FAIL_SHUTDOWN ≠ NO_ERROR := by
  refine ⟨?_, by decide⟩
  cases hp : env.prepare with
  | error e =>
    cases hr0 : env.reportRes 0 with
    | error e2 => exact ⟨[], by simp [run_service, hreg, hp, hr0, specFinalCode]⟩
    | ok u => exact ⟨[], by simp [run_service, hreg, hp, hr0, specFinalCode]⟩
  | ok app =>
    have hr0 := hrun app hp
    refine ⟨[{ current_state := ServiceState.Running,
               controls_accepted := ControlsAccepted.stop,
               exit_code := ServiceExitCode.Win32 NO_ERROR,
               checkpoint := 0, wait_hint := 0 }], ?_⟩
    cases hr1 : env.reportRes 1 with
    | error e2 =>
      cases ht : app.topologyStopOk <;>
        simp [run_service, hreg, hp, hr0, hr1, specFinalCode, ht]
    | ok u =>
      cases ht : app.topologyStopOk <;>
        simp [run_service, hreg, hp, hr0, hr1, specFinalCode, ht]

/-- Witness for C8: a run with all external calls succeeding and a
failed topology stop ends with the Stopped report carrying the
failed-shutdown code. -/
theorem run_service_final_stopped_report_witness :
    (∃ pre, (run_service (okRunEnv false)).2 =
      pre ++ [{ current_state := ServiceState.Stopped,
                controls_accepted := ControlsAccepted.empty,
                exit_code := specFinalCode (okRunEnv false).prepare,
                checkpoint := 0, wait_hint := 0 }])
    ∧ ERROR_FAIL_SHUTDOWN ≠ NO_ERROR :=
  run_service_final_stopped_report (okRunEnv false) rfl (fun _ _ => rfl)

end VectorWindows
